import Mathlib

/-!
Verification of `sherpa/csrc/text-utils.cc` (namespace `sherpa`).

The development shallowly embeds the two components of the file:

* the word merger `MergeCharactersIntoWords` together with its byte
  classifiers (`IsPunct`, `IsGermanUmlaut`, `IsSpanishDiacritic`,
  `IsFrenchDiacritic`, `IsSpecial`), working on fragments modelled as
  lists of byte values (`Nat`, each < 256);
* the numeric parser `ConvertStringToReal` / `NumberIstream` and the
  batch helpers `SplitStringToVector` / `SplitStringToFloats`, working
  on lists of `Char`.

Loops of the C++ source become fuel-based recursions (the fuel given at
the top-level call is provably sufficient); `std::vector` outputs become
lists; the `bool` + out-parameter convention becomes `Option` /
`Bool × List _` results.
-/

set_option linter.unusedVariables false

/-- A fragment: one element of the input to the word merger, a byte string
modelled as a list of byte values. -/
abbrev Frag := List Nat

/-- Model of C `isspace` in the C locale on a byte: space, \t, \n, \v, \f, \r.
Bytes ≥ 128 (passed as negative `char` in the source) classify as non-space,
matching the C-locale table. -/
def isspaceByte (c : Nat) : Bool :=
  c == 32 || c == 9 || c == 10 || c == 11 || c == 12 || c == 13

/-- Byte range test used to express the C-locale `ispunct` table. -/
def inRange (lo hi c : Nat) : Bool := Nat.ble lo c && Nat.ble c hi

/-- `static bool IsPunct(char c) { return c != '\'' && std::ispunct(c); }`
with `ispunct` expanded to the C-locale ASCII punctuation ranges. -/
def IsPunct (c : Nat) : Bool :=
  !(c == 39) &&
    (inRange 33 47 c || inRange 58 64 c || inRange 91 96 c || inRange 123 126 c)

/-- `IsGermanUmlaut`: two bytes, `0xC3` followed by one of the listed values. -/
def IsGermanUmlaut (w : Frag) : Bool :=
  match w with
  | [c0, c1] =>
    c0 == 0xc3 &&
      (c1 == 0xa4 || c1 == 0xb6 || c1 == 0xbc || c1 == 0x84 || c1 == 0x96 ||
        c1 == 0x9c || c1 == 0x9f)
  | _ => false

/-- `IsSpanishDiacritic`: two bytes, `0xC3` followed by one of the listed values. -/
def IsSpanishDiacritic (w : Frag) : Bool :=
  match w with
  | [c0, c1] =>
    c0 == 0xc3 &&
      (c1 == 0xa1 || c1 == 0xa9 || c1 == 0xad || c1 == 0xb3 || c1 == 0xba ||
        c1 == 0xbc || c1 == 0xb1 || c1 == 0x81 || c1 == 0x89 || c1 == 0x8d ||
        c1 == 0x93 || c1 == 0x9a || c1 == 0x9c || c1 == 0x91)
  | _ => false

/-- `IsFrenchDiacritic`: two bytes, `0xC3` followed by one of the listed values. -/
def IsFrenchDiacritic (w : Frag) : Bool :=
  match w with
  | [c0, c1] =>
    c0 == 0xc3 &&
      (c1 == 0xa9 || c1 == 0xa0 || c1 == 0xa8 || c1 == 0xb9 || c1 == 0xa7 ||
        c1 == 0xa2 || c1 == 0xaa || c1 == 0xae || c1 == 0xb4 || c1 == 0xbb ||
        c1 == 0xab || c1 == 0xaf || c1 == 0xbc || c1 == 0x89 || c1 == 0x80 ||
        c1 == 0x88 || c1 == 0x99 || c1 == 0x87 || c1 == 0x82 || c1 == 0x8a ||
        c1 == 0x8e || c1 == 0x94 || c1 == 0x9b || c1 == 0x8b || c1 == 0x8f ||
        c1 == 0x9c)
  | _ => false

/-- `IsSpecial`: one of the diacritic pairs, or the 3-byte right single
quotation mark `0xE2 0x80 0x99`. -/
def IsSpecial (w : Frag) : Bool :=
  (IsGermanUmlaut w || IsSpanishDiacritic w || IsFrenchDiacritic w) ||
    (match w with
     | [c0, c1, c2] => c0 == 0xe2 && c1 == 0x80 && c2 == 0x99
     | _ => false)

/-- Condition of the first branch of the merge loop
(`w.size() >= 3 || (w.size() == 2 && !IsSpecial(w)) ||
(w.size() == 1 && (IsPunct(w[0]) || std::isspace(w[0])))`). -/
def selfTermB (w : Frag) : Bool :=
  Nat.ble 3 w.length ||
    (w.length == 2 && !IsSpecial w) ||
    (w.length == 1 && (IsPunct (w.headD 0) || isspaceByte (w.headD 0)))

/-- Condition of the second branch of the merge loop
(`w.size() == 1 || (w.size() == 2 && IsSpecial(w))`). -/
def continB (w : Frag) : Bool :=
  w.length == 1 || (w.length == 2 && IsSpecial w)

/-- Byte concatenation of `words[p], …, words[i-1]`: the string `t` built by
`for (; prev < i; ++prev) t.append(words[prev]);`. -/
def concatRange (words : List Frag) (p i : Nat) : Frag :=
  ((words.drop p).take (i - p)).flatten

/-- The `while (i < n)` loop of `MergeCharactersIntoWords`, with explicit
fuel (the top-level call supplies fuel `n - i = n`, one unit per iteration,
which is exactly the number of iterations since `i` increases by 1 each
time round).  State: current index `i`, pending-run start `prev`
(`none` models `prev == -1`), accumulated output `ans`. -/
def mergeLoopF (words : List Frag) : Nat → Nat → Option Nat → List Frag → List Frag
  | 0, i, prev, ans =>
    (match prev with
     | some p => ans ++ [concatRange words p i]
     | none => ans)
  | fuel+1, i, prev, ans =>
    let w := words.getD i []
    if selfTermB w then
      let ans1 :=
        match prev with
        | some p => ans ++ [concatRange words p i]
        | none => ans
      let ans2 := if isspaceByte (w.headD 0) then ans1 else ans1 ++ [w]
      mergeLoopF words fuel (i+1) none ans2
    else if continB w then
      mergeLoopF words fuel (i+1) (some (prev.getD i)) ans
    else
      -- `SHERPA_LOGE("Ignore %s", ...)`: diagnostic only, no state change
      mergeLoopF words fuel (i+1) prev ans

/-- `MergeCharactersIntoWords`: top-level entry of the merge loop. -/
def MergeCharactersIntoWords (words : List Frag) : List Frag :=
  mergeLoopF words words.length 0 none []

/-- Structural restatement of the merge loop: the pending run is carried as
the byte concatenation of the fragments from `prev` to the current index
(`none` when `prev == -1`).  Proved equal to `MergeCharactersIntoWords`
in `MergeCharactersIntoWords_eq_mergeS` below; the claims are settled
against this form. -/
def mergeS : List Frag → Option Frag → List Frag
  | [], none => []
  | [], some t => [t]
  | w :: ws, pending =>
    if selfTermB w then
      pending.toList ++ (if isspaceByte (w.headD 0) then [] else [w]) ++ mergeS ws none
    else if continB w then
      mergeS ws (some (pending.getD [] ++ w))
    else
      mergeS ws pending

example : MergeCharactersIntoWords [[0x6f], [0xc3, 0xa4], [0x66]] = [[0x6f, 0xc3, 0xa4, 0x66]] := by decide
example : MergeCharactersIntoWords [[0x61], [0x20], [0x62]] = [[0x61], [0x62]] := by decide
example : mergeS [[0x61], [0x20], [0x62]] none = [[0x61], [0x62]] := by decide
example : MergeCharactersIntoWords [[0x20, 0x61]] = [] := by decide
example : MergeCharactersIntoWords [[0xe2, 0x80, 0x99]] = [[0xe2, 0x80, 0x99]] := by decide

/-! ## Numeric parser (`NumberIstream`, `ConvertStringToReal`) -/

/-- Result of a numeric parse: the source template instantiates at
`float`/`double`.  A finite value is kept exactly as the decimal the parser
read — sign, mantissa digits and power-of-ten exponent, denoting
`± mant · 10 ^ e` — instead of rounding to binary floating point; the
special values `±infinity` / `±quiet_NaN` are symbolic. -/
inductive RVal where
  | finite (neg : Bool) (mant : Nat) (e : Int)
  | inf (neg : Bool)
  | nan (neg : Bool)
deriving DecidableEq, Repr

/-- The literal `0` of the value type (`F f = 0;` and
value-initialization in `out->resize`). -/
def rvalZero : RVal := .finite false 0 0

/-- Model of C `isspace` on `Char` (the whitespace set used by
`std::istream` formatted extraction to skip and delimit tokens). -/
def isSpaceCh (c : Char) : Bool :=
  c == ' ' || c == '\t' || c == '\n' || c == '\x0b' || c == '\x0c' || c == '\r'

/-- Modelled from the C++ standard library (external collaborator): one
`in_ >> str` on an `istringstream` holding `s` — skip whitespace, read the
maximal non-whitespace token, fail (`none`) if the token is empty.
Returns the token and the remaining characters. -/
def extractToken (s : List Char) : Option (List Char × List Char) :=
  let s1 := s.dropWhile isSpaceCh
  let tok := s1.takeWhile (fun c => !isSpaceCh c)
  if tok.isEmpty then none else some (tok, s1.dropWhile (fun c => !isSpaceCh c))

/-- Optional sign at the head of a character list, returning
(is-negative, rest). -/
def parseSign (s : List Char) : Bool × List Char :=
  match s with
  | c :: r => if c = '+' then (false, r) else if c = '-' then (true, r) else (false, s)
  | [] => (false, [])

/-- Numeric value of a digit string (most significant first). -/
def digitsVal (l : List Char) : Nat :=
  l.foldl (fun a c => a * 10 + (c.toNat - 48)) 0

/-- Optional fraction part: consumes `'.'` followed by digits (possibly
none), returning (fraction digits, rest). -/
def parseFrac (s : List Char) : List Char × List Char :=
  match s with
  | c :: r => if c = '.' then (r.takeWhile Char.isDigit, r.dropWhile Char.isDigit) else ([], s)
  | [] => ([], [])

/-- Optional exponent part `e|E [sign] digits`; backtracks (consuming
nothing) when no exponent digit follows. -/
def parseExp (s : List Char) : Int × List Char :=
  match s with
  | c :: r =>
    if c = 'e' ∨ c = 'E' then
      let sg := parseSign r
      let eds := sg.2.takeWhile Char.isDigit
      if eds.isEmpty then (0, s)
      else ((if sg.1 then -(digitsVal eds : Int) else (digitsVal eds : Int)),
            sg.2.dropWhile Char.isDigit)
    else (0, s)
  | [] => (0, [])

/-- Value of a parsed decimal `[-] ds . fs e⟨e⟩` :
`± digits(ds ++ fs) · 10 ^ (e - |fs|)`. -/
def ratParsed (neg : Bool) (ds fs : List Char) (e : Int) : RVal :=
  .finite neg (digitsVal (ds ++ fs)) (e - (fs.length : Int))

/-- Modelled from the C++ standard library (external collaborator): the
number-reading core of `in_ >> x` for a floating type — longest decimal
prefix of shape `[sign] digits [. digits] [e|E [sign] digits]` with at
least one mantissa digit; fails (`none`) when there is none.  (The
`num_get` facet rejects textual `inf`/`nan` spellings outright, which is
why `ParseOnFail` exists; hexadecimal floats are not modelled.) -/
def parseNumber (s : List Char) : Option (RVal × List Char) :=
  let sg := parseSign s
  let ds := sg.2.takeWhile Char.isDigit
  let s2 := sg.2.dropWhile Char.isDigit
  let fr := parseFrac s2
  if ds.isEmpty && fr.1.isEmpty then none
  else
    let ex := parseExp fr.2
    some (ratParsed sg.1 ds fr.1 ex.1, ex.2)

/-- Modelled from the C++ standard library (external collaborator):
`in_ >> x` on a fresh `istringstream` holding `s` — skip leading
whitespace, then read a number. -/
def istreamReadDouble (s : List Char) : Option (RVal × List Char) :=
  parseNumber (s.dropWhile isSpaceCh)

/-- ASCII `::toupper` as applied by
`std::transform(str.begin(), str.end(), str.begin(), ::toupper)`. -/
def toUpperAscii (c : Char) : Char :=
  if 'a' ≤ c ∧ c ≤ 'z' then Char.ofNat (c.toNat - 32) else c

/-- The entries of `inf_nan_map`, in the order `ParseOnFail` inserts them
(a `std::unordered_map` with these thirteen distinct keys behaves as this
association list). -/
def infNanPairs : List (List Char × RVal) :=
  [("INF".data, .inf false), ("+INF".data, .inf false), ("-INF".data, .inf true),
   ("INFINITY".data, .inf false), ("+INFINITY".data, .inf false),
   ("-INFINITY".data, .inf true), ("NAN".data, .nan false),
   ("+NAN".data, .nan false), ("-NAN".data, .nan true),
   ("1.#INF".data, .inf false), ("-1.#INF".data, .inf true),
   ("1.#QNAN".data, .nan false), ("-1.#QNAN".data, .nan true)]

/-- The keys of `inf_nan_map` (uppercase spellings recognized by
`NumberIstream::ParseOnFail`). -/
def infNanKeys : List (List Char) := infNanPairs.map Prod.fst

/-- Lookup in `inf_nan_map`
(`inf_nan_map.find(str) != inf_nan_map.end()` followed by
`inf_nan_map[str]`). -/
def infNanLookup (t : List Char) : Option RVal := List.lookup t infNanPairs

/-- `NumberIstream::ParseOnFail`: rewind, read the whole input as a single
whitespace-delimited token (failing when there is no token or when more
content than spaces follows it), ASCII-uppercase it and look it up in
`inf_nan_map`. -/
def ParseOnFail (s : List Char) : Option RVal :=
  match extractToken s with
  | none => none
  | some (tok, rest) =>
    if rest.any (fun c => !isSpaceCh c) then none
    else infNanLookup (tok.map toUpperAscii)

/-- `NumberIstream::operator>>`: standard numeric extraction; on success the
remainder must contain only spaces (`RemainderIsOnlySpaces`), otherwise —
as on outright parse failure — fall back to `ParseOnFail`. -/
def NumberIstreamRead (s : List Char) : Option RVal :=
  match istreamReadDouble s with
  | some (v, rest) =>
    if rest.any (fun c => !isSpaceCh c) then ParseOnFail s
    else some v
  | none => ParseOnFail s

/-- `ConvertStringToReal`: `none` models returning `false` (the out
parameter holds no guaranteed value then). -/
def ConvertStringToReal (s : List Char) : Option RVal :=
  NumberIstreamRead s

example : ConvertStringToReal "3.14".data = some (.finite false 314 (-2)) := by decide
example : ConvertStringToReal "  3.14  ".data = some (.finite false 314 (-2)) := by decide
example : ConvertStringToReal "3.14 xyz".data = none := by decide
example : ConvertStringToReal "".data = none := by decide
example : ConvertStringToReal "inf".data = some (.inf false) := by decide
example : ConvertStringToReal "-INFINITY".data = some (.inf true) := by decide
example : ConvertStringToReal "NaN".data = some (.nan false) := by decide
example : ConvertStringToReal "1.#INF".data = some (.inf false) := by decide
example : ConvertStringToReal "-1e-2".data = some (.finite true 1 (-2)) := by decide

/-! ## Splitting helpers (`SplitStringToVector`, `SplitStringToFloats`) -/

/-- `full.find_first_of(delim, start)`: smallest index `≥ start` holding a
delimiter character (`none` models `npos`). -/
def findFirstOf (full delim : List Char) (start : Nat) : Option Nat :=
  ((full.drop start).findIdx? (fun c => delim.contains c)).map (· + start)

/-- The `while (found != std::string::npos)` loop of `SplitStringToVector`,
with explicit fuel (each iteration moves `start` past the delimiter found,
so `full.length + 1` iterations always suffice). -/
def splitLoopF (full delim : List Char) (omitEmpty : Bool) : Nat → Nat → List (List Char)
  | 0, _ => []
  | fuel+1, start =>
    match findFirstOf full delim start with
    | some found =>
      let piece := (full.drop start).take (found - start)
      (if !omitEmpty || (!(found == start) && !(start == full.length)) then [piece] else [])
        ++ splitLoopF full delim omitEmpty fuel (found + 1)
    | none =>
      let piece := full.drop start
      if !omitEmpty || (!(start == full.length)) then [piece] else []

/-- `SplitStringToVector` (the `out->clear()` start state is the empty
accumulated list). -/
def SplitStringToVector (full delim : List Char) (omitEmpty : Bool) : List (List Char) :=
  splitLoopF full delim omitEmpty (full.length + 1) 0

/-- `out->resize(n)` on a `std::vector<F>`: truncate or pad with
value-initialized elements. -/
def resizeList (l : List RVal) (n : Nat) (d : RVal) : List RVal :=
  l.take n ++ List.replicate (n - l.length) d

/-- The conversion loop of `SplitStringToFloats`: write each successfully
converted piece at its index, abort with `false` at the first failure
(leaving the vector as already written). -/
def fillLoop : List (List Char) → Nat → List RVal → Bool × List RVal
  | [], _, out => (true, out)
  | p :: ps, i, out =>
    match ConvertStringToReal p with
    | none => (false, out)
    | some f => fillLoop ps (i+1) (out.set i f)

/-- The effect of the conversion loop on the vector for a run of pieces
that all convert: each parsed value written at its index in turn. -/
def writeVals : List (List Char) → Nat → List RVal → List RVal
  | [], _, out => out
  | p :: ps, i, out =>
    writeVals ps (i+1) (out.set i ((ConvertStringToReal p).getD rvalZero))

/-- `SplitStringToFloats`: `out0` is the caller's vector contents on entry
(the source resizes it rather than clearing it); the result pairs the
returned `bool` with the final vector contents. -/
def SplitStringToFloats (full delim : List Char) (omitEmpty : Bool)
    (out0 : List RVal) : Bool × List RVal :=
  if full.headD (Char.ofNat 0) == Char.ofNat 0 then (true, [])
  else
    let split := SplitStringToVector full delim omitEmpty
    fillLoop split 0 (resizeList out0 split.length rvalZero)

example : SplitStringToVector "1,2,3".data [','] false = [['1'], ['2'], ['3']] := by decide
example : SplitStringToVector "a,,b,".data [','] true = [['a'], ['b']] := by decide
example : SplitStringToVector "a,,b,".data [','] false = [['a'], [], ['b'], []] := by decide
example : SplitStringToFloats "1,2".data [','] false [] = (true, [.finite false 1 0, .finite false 2 0]) := by decide
example : SplitStringToFloats "".data [','] false [.inf false] = (true, []) := by decide
example : SplitStringToFloats "1,x,2".data [','] false [] = (false, [.finite false 1 0, rvalZero, rvalZero]) := by decide

/-! ## Spec-side definitions

These two definitions follow the words of the specification (not the
source); they exist only to compare the spec's phrasing against the code's
behaviour in refutations. -/

/-- Following the spec's words: a fragment that is "pure whitespace"
(every byte is whitespace). -/
def isPureWhitespace (w : Frag) : Bool := w.all isspaceByte

/-- Following the spec's words: total byte count of all pure-whitespace
fragments of the input ("bytes belonging to dropped whitespace
fragments"). -/
def pureWhitespaceBytes (ws : List Frag) : Nat :=
  ((ws.filter isPureWhitespace).map List.length).sum

/-- Total byte count of a fragment sequence. -/
def totalBytes (ws : List Frag) : Nat := (ws.map List.length).sum

/-- A fragment the merge loop drops entirely: classified self-terminating
but beginning with a whitespace byte (the `!std::isspace(w[0])` guard). -/
def droppedB (w : Frag) : Bool := selfTermB w && isspaceByte (w.headD 0)

/-- Total byte count of the fragments the merge loop drops. -/
def droppedBytes (ws : List Frag) : Nat :=
  ((ws.filter droppedB).map List.length).sum

/-! ## Merge loop: equivalence with the structural form -/

lemma unrecognized_eq_nil (w : Frag) (h1 : selfTermB w = false)
    (h2 : continB w = false) : w = [] := by
  match w with
  | [] => rfl
  | [c] => simp [continB] at h2
  | [c0, c1] =>
    cases hs : IsSpecial [c0, c1] <;> simp [selfTermB, continB, hs] at h1 h2
  | c0 :: c1 :: c2 :: r =>
    simp [selfTermB] at h1
    have h3 : Nat.ble 3 (r.length + 1 + 1 + 1) = true := by
      rw [Nat.ble_eq]; omega
    rw [h3] at h1
    simp at h1

lemma concatRange_single (words : List Frag) (i : Nat) (h : i < words.length) :
    concatRange words i (i+1) = words.getD i [] := by
  unfold concatRange
  have h1 : i + 1 - i = 1 := by omega
  rw [h1, List.drop_eq_getElem_cons h, List.take_succ_cons, List.take_zero]
  simp [List.getD_eq_getElem?_getD, List.getElem?_eq_getElem h]

lemma concatRange_succ (words : List Frag) (p i : Nat) (hpi : p ≤ i)
    (hi : i < words.length) :
    concatRange words p (i+1) = concatRange words p i ++ words.getD i [] := by
  unfold concatRange
  have h1 : i + 1 - p = (i - p) + 1 := by omega
  rw [h1, List.take_succ, List.flatten_append]
  have h2 : (words.drop p)[i - p]? = some (words.getD i []) := by
    rw [List.getElem?_drop]
    have h3 : p + (i - p) = i := by omega
    rw [h3, List.getElem?_eq_getElem hi]
    simp [List.getD_eq_getElem?_getD, List.getElem?_eq_getElem hi]
  rw [h2]
  simp

lemma mergeLoopF_eq_mergeS (words : List Frag) :
    ∀ (k i : Nat) (prev : Option Nat) (ans : List Frag),
      k = words.length - i → (∀ p, prev = some p → p ≤ i) →
      mergeLoopF words k i prev ans
        = ans ++ mergeS (words.drop i) (prev.map fun p => concatRange words p i) := by
  intro k
  induction k with
  | zero =>
    intro i prev ans hk hprev
    have hlen : words.length ≤ i := by omega
    rw [List.drop_eq_nil_of_le hlen]
    cases prev with
    | none => simp [mergeLoopF, mergeS]
    | some p => simp [mergeLoopF, mergeS]
  | succ k ih =>
    intro i prev ans hk hprev
    have hi : i < words.length := by omega
    have hdrop : words.drop i = words.getD i [] :: words.drop (i+1) := by
      rw [List.drop_eq_getElem_cons hi]
      congr 1
      rw [List.getD_eq_getElem?_getD, List.getElem?_eq_getElem hi, Option.getD_some]
    rw [hdrop]
    by_cases hst : selfTermB (words.getD i []) = true
    · -- self-terminating branch
      simp only [mergeLoopF, hst, if_true]
      rw [ih (i+1) none _ (by omega) (by intro p hp; cases hp)]
      simp only [mergeS, hst, if_true, Option.map_none, Option.toList_none]
      cases prev with
      | none =>
        cases hsp : isspaceByte ((words.getD i []).headD 0) <;> simp [hsp]
      | some p =>
        cases hsp : isspaceByte ((words.getD i []).headD 0) <;> simp [hsp]
    · by_cases hc : continB (words.getD i []) = true
      · -- continuation branch
        simp only [mergeLoopF, hst, hc, if_true, if_false, Bool.false_eq_true]
        rw [ih (i+1) (some (prev.getD i)) _ (by omega)
            (by intro p hp; cases prev with
                | none => simp at hp; omega
                | some q => simp at hp; have := hprev q rfl; omega)]
        simp only [mergeS, hst, hc, if_true, if_false, Bool.false_eq_true]
        cases prev with
        | none =>
          simp [concatRange_single words i hi]
        | some p =>
          simp [concatRange_succ words p i (hprev p rfl) hi]
      · -- unrecognized fragment: necessarily the empty byte string
        have hw0 : words.getD i [] = [] :=
          unrecognized_eq_nil _ (by simpa using hst) (by simpa using hc)
        simp only [mergeLoopF, hst, hc, if_false, Bool.false_eq_true]
        rw [ih (i+1) prev _ (by omega)
            (by intro p hp; have := hprev p hp; omega)]
        simp only [mergeS, hst, hc, if_false, Bool.false_eq_true]
        cases prev with
        | none => simp
        | some p =>
          have := concatRange_succ words p i (hprev p rfl) hi
          rw [hw0] at this
          simp [this]

lemma MergeCharactersIntoWords_eq_mergeS (words : List Frag) :
    MergeCharactersIntoWords words = mergeS words none := by
  unfold MergeCharactersIntoWords
  have h := mergeLoopF_eq_mergeS words words.length 0 none []
    (by omega) (by intro p hp; cases hp)
  simpa using h

/-! ## Merge loop: supporting lemmas -/

lemma totalBytes_nil : totalBytes [] = 0 := rfl

lemma totalBytes_cons (w : Frag) (ws : List Frag) :
    totalBytes (w :: ws) = w.length + totalBytes ws := by
  simp [totalBytes]

lemma totalBytes_append (a b : List Frag) :
    totalBytes (a ++ b) = totalBytes a + totalBytes b := by
  simp [totalBytes]

lemma droppedBytes_cons (w : Frag) (ws : List Frag) :
    droppedBytes (w :: ws)
      = (if droppedB w then w.length else 0) + droppedBytes ws := by
  simp only [droppedBytes, List.filter_cons]
  split <;> simp

lemma selfTermB_ne_nil (w : Frag) (h : selfTermB w = true) : w ≠ [] := by
  intro hw
  subst hw
  simp [selfTermB] at h

lemma continB_ne_nil (w : Frag) (h : continB w = true) : w ≠ [] := by
  intro hw
  subst hw
  simp [continB] at h

lemma mergeS_bytes : ∀ (ws : List Frag) (pending : Option Frag),
    totalBytes (mergeS ws pending) + droppedBytes ws
      = totalBytes pending.toList + totalBytes ws := by
  intro ws
  induction ws with
  | nil =>
    intro pending
    cases pending <;> simp [mergeS, totalBytes, droppedBytes]
  | cons w ws ih =>
    intro pending
    by_cases hst : selfTermB w = true
    · by_cases hsp : isspaceByte (w.headD 0) = true
      · have hsp' : isspaceByte ((w.head?).getD 0) = true := by simpa using hsp
        have hd : droppedB w = true := by simp [droppedB, hst, hsp']
        have h1 := ih none
        simp [mergeS, hst, hsp', hd, totalBytes, droppedBytes,
          List.filter_cons] at h1 ⊢
        omega
      · have hsp' : isspaceByte ((w.head?).getD 0) = false := by
          simpa using eq_false_of_ne_true hsp
        have hd : droppedB w = false := by simp [droppedB, hsp']
        have h1 := ih none
        simp [mergeS, hst, hsp', hd, totalBytes, droppedBytes,
          List.filter_cons] at h1 ⊢
        omega
    · have hst2 : selfTermB w = false := eq_false_of_ne_true hst
      have hd : droppedB w = false := by unfold droppedB; rw [hst2]; simp
      by_cases hc : continB w = true
      · have h1 := ih (some (pending.getD [] ++ w))
        cases pending with
        | none =>
          simp [mergeS, hst2, hc, hd, totalBytes, droppedBytes,
            List.filter_cons] at h1 ⊢
          omega
        | some t =>
          simp [mergeS, hst2, hc, hd, totalBytes, droppedBytes,
            List.filter_cons] at h1 ⊢
          omega
      · have hc2 : continB w = false := eq_false_of_ne_true hc
        have hw0 : w = [] := unrecognized_eq_nil w hst2 hc2
        subst hw0
        have h1 := ih pending
        simp [mergeS, hst2, hc2, hd, totalBytes, droppedBytes,
          List.filter_cons] at h1 ⊢
        omega

lemma mergeS_ne_nil : ∀ (ws : List Frag) (pending : Option Frag),
    (∀ t, pending = some t → t ≠ []) →
    ∀ w ∈ mergeS ws pending, w ≠ [] := by
  intro ws
  induction ws with
  | nil =>
    intro pending hp w hw
    cases pending with
    | none => simp [mergeS] at hw
    | some t =>
      simp [mergeS] at hw
      rw [hw]
      exact hp t rfl
  | cons u ws ih =>
    intro pending hp w hw
    by_cases hst : selfTermB u = true
    · simp only [mergeS, hst, if_true] at hw
      rcases List.mem_append.1 hw with h1 | h2
      · rcases List.mem_append.1 h1 with h3 | h4
        · cases pending with
          | none => simp at h3
          | some t =>
            simp at h3
            rw [h3]
            exact hp t rfl
        · by_cases hsp : isspaceByte (u.headD 0) = true
          · rw [hsp, if_pos rfl] at h4
            simp at h4
          · rw [eq_false_of_ne_true hsp, if_neg (by simp)] at h4
            simp at h4
            rw [h4]
            exact selfTermB_ne_nil u hst
      · exact ih none (by intro t ht; cases ht) w h2
    · by_cases hc : continB u = true
      · simp only [mergeS, eq_false_of_ne_true hst, hc, if_true, if_false,
          Bool.false_eq_true] at hw
        refine ih _ ?_ w hw
        intro t ht
        injection ht with ht1
        subst ht1
        intro hcontra
        have := List.append_eq_nil.1 hcontra
        exact continB_ne_nil u hc this.2
      · simp only [mergeS, eq_false_of_ne_true hst, eq_false_of_ne_true hc,
          if_false, Bool.false_eq_true] at hw
        exact ih pending hp w hw

lemma mergeS_fixed : ∀ (ws : List Frag),
    (∀ w ∈ ws, 3 ≤ w.length ∧ isspaceByte (w.headD 0) = false) →
    mergeS ws none = ws := by
  intro ws
  induction ws with
  | nil => intro h; simp [mergeS]
  | cons w ws ih =>
    intro h
    have hw := h w (List.mem_cons_self w ws)
    have hst : selfTermB w = true := by
      have h3 : Nat.ble 3 w.length = true := by rw [Nat.ble_eq]; exact hw.1
      simp [selfTermB, h3]
    have hsp' : isspaceByte ((w.head?).getD 0) = false := by simpa using hw.2
    simp [mergeS, hst, hsp']
    exact ih fun u hu => h u (List.mem_cons_of_mem w hu)

lemma mergeS_skip_nil : ∀ (xs : List Frag) (pending : Option Frag) (ys : List Frag),
    mergeS (xs ++ [] :: ys) pending = mergeS (xs ++ ys) pending := by
  intro xs
  induction xs with
  | nil =>
    intro pending ys
    simp only [List.nil_append]
    simp only [mergeS, selfTermB, continB, IsSpecial, IsGermanUmlaut,
      IsSpanishDiacritic, IsFrenchDiacritic]
    simp
  | cons u xs ih =>
    intro pending ys
    simp only [List.cons_append, mergeS]
    by_cases hst : selfTermB u = true
    · simp [hst, ih]
    · by_cases hc : continB u = true
      · simp [eq_false_of_ne_true hst, hc, ih]
      · simp [eq_false_of_ne_true hst, eq_false_of_ne_true hc, ih]

/-! ## Claims about the word merger -/

/-- C2 (counterexample): the two-byte fragment `" a"` (bytes 0x20 0x61) is
classified self-terminating and is not pure whitespace, yet the merger
emits nothing for it — refuting the claim that a self-terminating fragment
is emitted as its own word unless it is pure whitespace. -/
theorem merge_space_led_selfTerm_dropped :
    selfTermB [32, 97] = true ∧ isPureWhitespace [32, 97] = false ∧
      MergeCharactersIntoWords [[32, 97]] = [] := by
  decide

/-- C2 (amended): a self-terminating fragment first flushes any pending
run and is then emitted as its own word unless its first byte is
whitespace (the source tests only `w[0]`), in which case nothing is
emitted for it. -/
theorem merge_selfTerm_flush_then_emit :
    (∀ (pending : Option Frag) (w : Frag) (ws : List Frag), selfTermB w = true →
        mergeS (w :: ws) pending
          = pending.toList ++ (if isspaceByte (w.headD 0) then [] else [w])
              ++ mergeS ws none) ∧
    (∀ (w : Frag) (ws : List Frag), selfTermB w = true →
        MergeCharactersIntoWords (w :: ws)
          = (if isspaceByte (w.headD 0) then [] else [w])
              ++ MergeCharactersIntoWords ws) := by
  constructor
  · intro pending w ws h
    simp [mergeS, h]
  · intro w ws h
    rw [MergeCharactersIntoWords_eq_mergeS, MergeCharactersIntoWords_eq_mergeS]
    simp [mergeS, h]

/-- C2 (witness): the amended flush-and-emit rule instantiated at the
punctuation fragment `"."` with pending run `"a"`. -/
theorem merge_selfTerm_flush_then_emit_witness :
    mergeS [[46]] (some [97])
      = (some [97] : Option Frag).toList
          ++ (if isspaceByte (([46] : Frag).headD 0) then [] else [[46]])
          ++ mergeS [] none :=
  merge_selfTerm_flush_then_emit.1 (some [97]) [46] [] (by decide)

/-- C3 (counterexample): for the input `[" ab"]` the merger loses three
bytes although no fragment is pure whitespace: the output carries 0 bytes,
the input 3, and pure-whitespace fragments account for 0 of them. -/
theorem merge_byte_loss_beyond_whitespace_fragments :
    totalBytes (MergeCharactersIntoWords [[32, 97, 98]]) = 0 ∧
      totalBytes [[32, 97, 98]] = 3 ∧
      pureWhitespaceBytes [[32, 97, 98]] = 0 := by
  decide

/-- C3 (amended): no input byte is lost or duplicated except those of the
fragments the merger drops — the self-terminating fragments whose first
byte is whitespace: output bytes plus dropped-fragment bytes equal input
bytes. -/
theorem merge_byte_conservation (ws : List Frag) :
    totalBytes (MergeCharactersIntoWords ws) + droppedBytes ws = totalBytes ws := by
  rw [MergeCharactersIntoWords_eq_mergeS]
  have h := mergeS_bytes ws none
  simpa [totalBytes_nil] using h

/-- C4: (1) meeting a self-terminating fragment with a run pending first
emits the pending concatenation as one word and only then handles the
trigger by its own rule; (2) at end of input a still-pending run is
flushed as one word; (3) a pending run of a single continuation fragment
is emitted verbatim. -/
theorem merge_pending_flush_rules :
    (∀ (t w : Frag) (ws : List Frag), selfTermB w = true →
        mergeS (w :: ws) (some t)
          = t :: ((if isspaceByte (w.headD 0) then [] else [w]) ++ mergeS ws none)) ∧
    (∀ t : Frag, mergeS [] (some t) = [t]) ∧
    (∀ w : Frag, selfTermB w = false → continB w = true →
        MergeCharactersIntoWords [w] = [w]) := by
  refine ⟨?_, ?_, ?_⟩
  · intro t w ws h
    simp [mergeS, h]
  · intro t
    simp [mergeS]
  · intro w h1 h2
    rw [MergeCharactersIntoWords_eq_mergeS]
    simp [mergeS, h1, h2]

/-- C4 (witness): the three flush rules instantiated at concrete
fragments (`"."` closing the pending run `"b"`; flush at end of input;
the single continuation fragment `"a"`). -/
theorem merge_pending_flush_rules_witness :
    mergeS [[46]] (some [98])
      = [98] :: ((if isspaceByte (([46] : Frag).headD 0) then [] else [[46]])
          ++ mergeS [] none) ∧
    mergeS [] (some [98, 99]) = [[98, 99]] ∧
    MergeCharactersIntoWords [[97]] = [[97]] :=
  ⟨merge_pending_flush_rules.1 [98] [46] [] (by decide),
   merge_pending_flush_rules.2.1 [98, 99],
   merge_pending_flush_rules.2.2 [97] (by decide) (by decide)⟩

/-- C7: every 3-byte fragment — including the elision apostrophe
0xE2 0x80 0x99, which `IsSpecial` treats as special — is classified
self-terminating and never starts or extends a pending run; merging
consults `IsSpecial` only at length 2, where the 3-byte clause
contributes nothing, so that clause is dead for merging. -/
theorem merge_three_byte_always_self_terminates :
    IsSpecial [0xe2, 0x80, 0x99] = true ∧
    (∀ w : Frag, w.length = 3 → selfTermB w = true ∧ continB w = false) ∧
    (∀ (pending : Option Frag) (w : Frag) (ws : List Frag), w.length = 3 →
        mergeS (w :: ws) pending
          = pending.toList ++ (if isspaceByte (w.headD 0) then [] else [w])
              ++ mergeS ws none) ∧
    (∀ w : Frag, w.length = 2 →
        IsSpecial w
          = (IsGermanUmlaut w || IsSpanishDiacritic w || IsFrenchDiacritic w)) := by
  refine ⟨by decide, ?_, ?_, ?_⟩
  · intro w h
    have h3 : Nat.ble 3 w.length = true := by rw [Nat.ble_eq]; omega
    refine ⟨by simp [selfTermB, h3], ?_⟩
    simp [continB, h]
  · intro pending w ws h
    have h3 : Nat.ble 3 w.length = true := by rw [Nat.ble_eq]; omega
    have hst : selfTermB w = true := by simp [selfTermB, h3]
    simp [mergeS, hst]
  · intro w h
    match w, h with
    | [c0, c1], _ => simp [IsSpecial]

/-- C7 (witness): the 3-byte rule instantiated at the elision apostrophe
itself: it self-terminates and is emitted as its own word. -/
theorem merge_three_byte_always_self_terminates_witness :
    mergeS [[0xe2, 0x80, 0x99]] none
      = (none : Option Frag).toList
          ++ (if isspaceByte (([0xe2, 0x80, 0x99] : Frag).headD 0) then []
              else [[0xe2, 0x80, 0x99]])
          ++ mergeS [] none :=
  merge_three_byte_always_self_terminates.2.2.1 none [0xe2, 0x80, 0x99] [] (by decide)

/-- C8 (counterexample): `["\tab"]` is a sequence of words each at least
3 bytes long, yet the merger drops the word (its first byte is
whitespace): re-merging is not the identity on it. -/
theorem merge_not_identity_on_long_space_led_word :
    3 ≤ ([9, 97, 98] : Frag).length ∧
      MergeCharactersIntoWords [[9, 97, 98]] = [] ∧
      ([[9, 97, 98]] : List Frag) ≠ [] := by
  decide

/-- C8 (amended): re-merging a sequence of words each at least 3 bytes
long whose first byte is not whitespace (true of every word the merger
itself outputs) returns the sequence unchanged. -/
theorem merge_idempotent_on_long_words (ws : List Frag)
    (h : ∀ w ∈ ws, 3 ≤ w.length ∧ isspaceByte (w.headD 0) = false) :
    MergeCharactersIntoWords ws = ws := by
  rw [MergeCharactersIntoWords_eq_mergeS]
  exact mergeS_fixed ws h

/-- C8 (witness): idempotence instantiated at `["abc", "äd"]`. -/
theorem merge_idempotent_on_long_words_witness :
    MergeCharactersIntoWords [[97, 98, 99], [195, 164, 100]]
      = [[97, 98, 99], [195, 164, 100]] :=
  merge_idempotent_on_long_words [[97, 98, 99], [195, 164, 100]] (by decide)

/-- C9: the only fragments matching neither classification rule are the
empty ones, and the merger skips an empty fragment with no effect on the
output whatever the surrounding fragments are — it cannot crash (the
embedding is total on all inputs), the fragment reaches no output word,
and the scan advances past it. -/
theorem merge_skips_unrecognized_fragments :
    (∀ w : Frag, (selfTermB w = false ∧ continB w = false) ↔ w = []) ∧
    (∀ xs ys : List Frag,
        MergeCharactersIntoWords (xs ++ [] :: ys)
          = MergeCharactersIntoWords (xs ++ ys)) := by
  constructor
  · intro w
    constructor
    · intro h
      exact unrecognized_eq_nil w h.1 h.2
    · intro h
      subst h
      exact ⟨by decide, by decide⟩
  · intro xs ys
    rw [MergeCharactersIntoWords_eq_mergeS, MergeCharactersIntoWords_eq_mergeS]
    exact mergeS_skip_nil xs none ys

/-- C9 (witness): skipping an empty fragment between two letters. -/
theorem merge_skips_unrecognized_fragments_witness :
    MergeCharactersIntoWords [[97], [], [98]]
      = MergeCharactersIntoWords [[97], [98]] :=
  merge_skips_unrecognized_fragments.2 [[97]] [[98]]

/-- C10: every word the merger outputs is a non-empty byte string. -/
theorem merge_output_words_nonempty (ws : List Frag) (w : Frag)
    (h : w ∈ MergeCharactersIntoWords ws) : w ≠ [] := by
  rw [MergeCharactersIntoWords_eq_mergeS] at h
  exact mergeS_ne_nil ws none (by intro t ht; cases ht) w h

/-- C10 (witness): the single output word of `["a"]` is non-empty. -/
theorem merge_output_words_nonempty_witness :
    [97] ∈ MergeCharactersIntoWords [[97]] ∧ ([97] : Frag) ≠ [] :=
  ⟨by decide, merge_output_words_nonempty [[97]] [97] (by decide)⟩

/-! ## Numeric parser: supporting lemmas -/

lemma isSpace_char_props (c : Char) (h : isSpaceCh c = true) :
    c.isDigit = false ∧ c ≠ '.' ∧ c ≠ '+' ∧ c ≠ '-' ∧ c ≠ 'e' ∧ c ≠ 'E' := by
  simp [isSpaceCh] at h
  rcases h with ((((rfl | rfl) | rfl) | rfl) | rfl) | rfl <;> decide

lemma all_space_head (c : Char) (r : List Char)
    (h : (c :: r).all isSpaceCh = true) : isSpaceCh c = true := by
  rw [List.all_cons, Bool.and_eq_true] at h
  exact h.1

lemma all_space_takeWhile_digit (ws : List Char) (h : ws.all isSpaceCh = true) :
    ws.takeWhile Char.isDigit = [] := by
  cases ws with
  | nil => rfl
  | cons c r =>
    have hp := isSpace_char_props c (all_space_head c r h)
    simp [List.takeWhile_cons, hp.1]

lemma span_append_stop (p : Char → Bool) : ∀ (l m : List Char),
    m.takeWhile p = [] →
    (l ++ m).takeWhile p = l.takeWhile p ∧
      (l ++ m).dropWhile p = l.dropWhile p ++ m := by
  intro l
  induction l with
  | nil =>
    intro m hm
    refine ⟨by simpa using hm, ?_⟩
    cases m with
    | nil => rfl
    | cons c r =>
      simp only [List.takeWhile_cons] at hm
      by_cases hc : p c = true
      · rw [if_pos hc] at hm; cases hm
      · have hc2 : p c = false := eq_false_of_ne_true hc
        simp [List.dropWhile_cons, hc2]
  | cons a l ih =>
    intro m hm
    by_cases ha : p a = true
    · have h1 := ih m hm
      simp [List.takeWhile_cons, List.dropWhile_cons, ha, h1.1, h1.2]
    · have ha2 : p a = false := eq_false_of_ne_true ha
      simp [List.takeWhile_cons, List.dropWhile_cons, ha2]

lemma dropWhile_space_append : ∀ (ws1 rest : List Char),
    ws1.all isSpaceCh = true →
    (ws1 ++ rest).dropWhile isSpaceCh = rest.dropWhile isSpaceCh := by
  intro ws1
  induction ws1 with
  | nil => intro rest h; rfl
  | cons c r ih =>
    intro rest h
    have hc := all_space_head c r h
    have hr : r.all isSpaceCh = true := by
      rw [List.all_cons, Bool.and_eq_true] at h
      exact h.2
    simp [List.dropWhile_cons, hc, ih rest hr]

lemma all_space_no_token (ws : List Char) (h : ws.all isSpaceCh = true) :
    ws.any (fun c => !isSpaceCh c) = false := by
  simp [List.all_eq_true] at h
  rw [List.any_eq_false]
  intro c hc
  simp [h c hc]

lemma parseSign_append_stop (t ws : List Char) (hws : ws.all isSpaceCh = true) :
    parseSign (t ++ ws) = ((parseSign t).1, (parseSign t).2 ++ ws) := by
  cases t with
  | nil =>
    simp only [List.nil_append]
    cases ws with
    | nil => rfl
    | cons c r =>
      have hp := isSpace_char_props c (all_space_head c r hws)
      simp [parseSign, hp.2.2.1, hp.2.2.2.1]
  | cons c r =>
    by_cases h1 : c = '+'
    · subst h1; simp [parseSign]
    · by_cases h2 : c = '-'
      · subst h2; simp [parseSign]
      · simp [parseSign, h1, h2]

lemma parseFrac_append_stop (t ws : List Char) (hws : ws.all isSpaceCh = true) :
    parseFrac (t ++ ws) = ((parseFrac t).1, (parseFrac t).2 ++ ws) := by
  cases t with
  | nil =>
    simp only [List.nil_append]
    cases ws with
    | nil => rfl
    | cons c r =>
      have hp := isSpace_char_props c (all_space_head c r hws)
      simp [parseFrac, hp.2.1]
  | cons c r =>
    by_cases h1 : c = '.'
    · subst h1
      have hspan := span_append_stop Char.isDigit r ws (all_space_takeWhile_digit ws hws)
      simp [parseFrac, hspan.1, hspan.2]
    · simp [parseFrac, h1]

lemma parseExp_append_stop (t ws : List Char) (hws : ws.all isSpaceCh = true) :
    parseExp (t ++ ws) = ((parseExp t).1, (parseExp t).2 ++ ws) := by
  cases t with
  | nil =>
    simp only [List.nil_append]
    cases ws with
    | nil => rfl
    | cons c r =>
      have hp := isSpace_char_props c (all_space_head c r hws)
      have he : ¬(c = 'e' ∨ c = 'E') := by
        rintro (rfl | rfl)
        · exact hp.2.2.2.2.1 rfl
        · exact hp.2.2.2.2.2 rfl
      simp [parseExp, he]
  | cons c r =>
    by_cases he : c = 'e' ∨ c = 'E'
    · have hsg := parseSign_append_stop r ws hws
      have hspan := span_append_stop Char.isDigit (parseSign r).2 ws
        (all_space_takeWhile_digit ws hws)
      simp only [List.cons_append, parseExp, hsg]
      by_cases hemp : ((parseSign r).2.takeWhile Char.isDigit).isEmpty = true
      · simp [he, hspan.1, hspan.2, hemp]
      · simp [he, hspan.1, hspan.2, hemp]
    · simp [parseExp, he]

lemma parseNumber_append_stop (tok ws : List Char) (hws : ws.all isSpaceCh = true) :
    parseNumber (tok ++ ws)
      = (parseNumber tok).map (fun q => (q.1, q.2 ++ ws)) := by
  have hsg := parseSign_append_stop tok ws hws
  have hspan := span_append_stop Char.isDigit (parseSign tok).2 ws
    (all_space_takeWhile_digit ws hws)
  have hfr := parseFrac_append_stop ((parseSign tok).2.dropWhile Char.isDigit) ws hws
  have hex := parseExp_append_stop
    ((parseFrac ((parseSign tok).2.dropWhile Char.isDigit)).2) ws hws
  simp only [parseNumber, hsg]
  by_cases hc : (((parseSign tok).2.takeWhile Char.isDigit).isEmpty
      && ((parseFrac ((parseSign tok).2.dropWhile Char.isDigit)).1).isEmpty) = true
  · simp [hspan.1, hspan.2, hfr, hc]
  · simp [hspan.1, hspan.2, hfr, hex, hc]

lemma parseNumber_head_not_space (tok : List Char) (v : RVal) (r : List Char)
    (h : parseNumber tok = some (v, r)) :
    ∃ c r0, tok = c :: r0 ∧ isSpaceCh c = false := by
  cases tok with
  | nil => simp [parseNumber, parseSign, parseFrac] at h
  | cons c r0 =>
    refine ⟨c, r0, rfl, ?_⟩
    cases hcc : isSpaceCh c with
    | false => rfl
    | true =>
      have hp := isSpace_char_props c hcc
      have hnone : parseNumber (c :: r0) = none := by
        simp [parseNumber, parseSign, parseFrac, List.takeWhile_cons,
          List.dropWhile_cons, hp.1, hp.2.1, hp.2.2.1, hp.2.2.2.1]
      rw [hnone] at h
      cases h

lemma fillLoop_first_failure : ∀ (ps1 : List (List Char)) (bad : List Char)
    (ps2 : List (List Char)) (i : Nat) (out : List RVal),
    (∀ p ∈ ps1, (ConvertStringToReal p).isSome = true) →
    ConvertStringToReal bad = none →
    fillLoop (ps1 ++ bad :: ps2) i out = (false, writeVals ps1 i out) := by
  intro ps1
  induction ps1 with
  | nil =>
    intro bad ps2 i out hok hbad
    simp [fillLoop, hbad, writeVals]
  | cons p ps ih =>
    intro bad ps2 i out hok hbad
    have hp := hok p (List.mem_cons_self p ps)
    obtain ⟨v, hv⟩ := Option.isSome_iff_exists.1 hp
    simp only [List.cons_append, fillLoop, hv, List.append_eq]
    rw [ih bad ps2 (i+1) _ (fun q hq => hok q (List.mem_cons_of_mem p hq)) hbad]
    simp [writeVals, hv]

lemma lookup_isSome_iff {α β : Type} [BEq α] [LawfulBEq α] (a : α) :
    ∀ l : List (α × β), (List.lookup a l).isSome = true ↔ a ∈ l.map Prod.fst := by
  intro l
  induction l with
  | nil => simp [List.lookup]
  | cons kv l ih =>
    cases kv with
    | mk k v =>
      by_cases hk : (a == k) = true
      · have hak : a = k := by simpa using hk
        simp [List.lookup, hk, hak]
      · have hk2 : (a == k) = false := eq_false_of_ne_true hk
        have hne : ¬ a = k := by simpa using hk2
        simp [List.lookup, hk2, ih, hne]

/-! ## Claims about the numeric parser and batch splitting -/

/-- C5 (counterexample): `"1."` is a valid numeric token and in `"1.#INF"`
it is followed by the non-space content `"#INF"`, yet `ConvertStringToReal`
succeeds on `"1.#INF"` (via the legacy-spelling table) instead of
returning false. -/
theorem ConvertStringToReal_trailing_junk_can_succeed :
    parseNumber "1.".data = some (.finite false 1 0, []) ∧
      "1.#INF".data = "1.".data ++ "#INF".data ∧
      "#INF".data.any (fun c => !isSpaceCh c) = true ∧
      ConvertStringToReal "1.#INF".data = some (.inf false) := by
  decide

/-- C5 (amended): `ConvertStringToReal` (1) succeeds on a single valid
numeric token surrounded by only whitespace; (2) fails on the empty
string; and (3) when non-space content follows the parsed numeric token,
the result is exactly the fallback single-token table lookup
(`ParseOnFail`) — which fails on `"3.14 xyz"` and on two numbers, but can
succeed on the legacy spellings such as `"1.#INF"`. -/
theorem ConvertStringToReal_token_parsing :
    (∀ (ws1 tok ws2 : List Char) (v : RVal),
        ws1.all isSpaceCh = true → ws2.all isSpaceCh = true →
        parseNumber tok = some (v, []) →
        ConvertStringToReal (ws1 ++ tok ++ ws2) = some v) ∧
    ConvertStringToReal [] = none ∧
    (∀ (s : List Char) (v : RVal) (rest : List Char),
        istreamReadDouble s = some (v, rest) →
        rest.any (fun c => !isSpaceCh c) = true →
        ConvertStringToReal s = ParseOnFail s) ∧
    ConvertStringToReal "3.14 xyz".data = none ∧
    ConvertStringToReal "1 2".data = none := by
  refine ⟨?_, by decide, ?_, by decide, by decide⟩
  · intro ws1 tok ws2 v h1 h2 hp
    obtain ⟨c, r0, htok, hc⟩ := parseNumber_head_not_space tok v [] hp
    unfold ConvertStringToReal NumberIstreamRead istreamReadDouble
    rw [List.append_assoc, dropWhile_space_append ws1 (tok ++ ws2) h1]
    have hd2 : (tok ++ ws2).dropWhile isSpaceCh = tok ++ ws2 := by
      rw [htok, List.cons_append, List.dropWhile_cons, hc]
      simp
    rw [hd2, parseNumber_append_stop tok ws2 h2, hp]
    simp [all_space_no_token ws2 h2]
  · intro s v rest h1 h2
    unfold ConvertStringToReal NumberIstreamRead
    simp [h1, h2]

/-- C5 (witness): part (1) at `" 2.5 "` (so the whole parse succeeds) and
part (3) at `"3.14 xyz"` (so the junk-tail case falls back to the table
lookup, which fails there). -/
theorem ConvertStringToReal_token_parsing_witness :
    ConvertStringToReal (" ".data ++ "2.5".data ++ " ".data)
      = some (.finite false 25 (-1)) ∧
    ConvertStringToReal "3.14 xyz".data = ParseOnFail "3.14 xyz".data :=
  ⟨ConvertStringToReal_token_parsing.1 " ".data "2.5".data " ".data
      (.finite false 25 (-1)) (by decide) (by decide) (by decide),
   ConvertStringToReal_token_parsing.2.2.1 "3.14 xyz".data
      (.finite false 314 (-2)) " xyz".data (by decide) (by decide)⟩

/-- C6: when standard numeric extraction fails (outright, or because
non-space content remains) and the input holds exactly one token, the
result is the table lookup of the ASCII-uppercased token; the table is
defined on exactly the thirteen spellings, with the INF spellings mapped
to infinity of the matching sign and the NAN spellings to quiet NaNs. -/
theorem ConvertStringToReal_inf_nan_table :
    (∀ (s tok rest : List Char),
        (istreamReadDouble s = none ∨
          ∃ v r, istreamReadDouble s = some (v, r) ∧
            r.any (fun c => !isSpaceCh c) = true) →
        extractToken s = some (tok, rest) →
        rest.any (fun c => !isSpaceCh c) = false →
        ConvertStringToReal s = infNanLookup (tok.map toUpperAscii)) ∧
    (∀ t : List Char, (infNanLookup t).isSome = true ↔ t ∈ infNanKeys) ∧
    infNanLookup "INF".data = some (.inf false) ∧
    infNanLookup "+INF".data = some (.inf false) ∧
    infNanLookup "-INF".data = some (.inf true) ∧
    infNanLookup "INFINITY".data = some (.inf false) ∧
    infNanLookup "+INFINITY".data = some (.inf false) ∧
    infNanLookup "-INFINITY".data = some (.inf true) ∧
    infNanLookup "NAN".data = some (.nan false) ∧
    infNanLookup "+NAN".data = some (.nan false) ∧
    infNanLookup "-NAN".data = some (.nan true) ∧
    infNanLookup "1.#INF".data = some (.inf false) ∧
    infNanLookup "-1.#INF".data = some (.inf true) ∧
    infNanLookup "1.#QNAN".data = some (.nan false) ∧
    infNanLookup "-1.#QNAN".data = some (.nan true) := by
  refine ⟨?_, ?_, by decide, by decide, by decide, by decide, by decide,
    by decide, by decide, by decide, by decide, by decide, by decide,
    by decide, by decide⟩
  · intro s tok rest h1 h2 h3
    have hpof : ParseOnFail s = infNanLookup (tok.map toUpperAscii) := by
      unfold ParseOnFail
      rw [h2]
      simp [h3]
    rcases h1 with h | ⟨v, r, hvr, hany⟩
    · unfold ConvertStringToReal NumberIstreamRead
      simp [h, hpof]
    · unfold ConvertStringToReal NumberIstreamRead
      simp [hvr, hany, hpof]
  · intro t
    exact lookup_isSome_iff t infNanPairs

/-- C6 (witness): the lookup rule instantiated at `"inf"` (lower case, so
both the case-insensitivity and the fallback path are exercised). -/
theorem ConvertStringToReal_inf_nan_table_witness :
    ConvertStringToReal "inf".data = infNanLookup ("inf".data.map toUpperAscii) :=
  ConvertStringToReal_inf_nan_table.1 "inf".data "inf".data []
    (Or.inl (by decide)) (by decide) (by decide)

/-- C1 (counterexample): on `"1,x"` the conversion of `"x"` fails, the
function returns `false`, yet the output vector is not empty — it holds
the already-parsed `1` and a value-initialized `0` — refuting the claim
that a failed batch leaves no output. -/
theorem SplitStringToFloats_failure_keeps_values :
    (SplitStringToFloats "1,x".data [','] false []).1 = false ∧
      (SplitStringToFloats "1,x".data [','] false []).2
        = [.finite false 1 0, rvalZero] ∧
      [RVal.finite false 1 0, rvalZero] ≠ ([] : List RVal) := by
  decide

/-- C1 (amended): the first unparseable piece aborts the batch — `false`
is returned and no later piece is converted — but the output vector is
left resized to the piece count, holding the values parsed before the
failure and the resize filler after it; it is not cleared. -/
theorem SplitStringToFloats_first_failure_aborts
    (full delim : List Char) (omitEmpty : Bool) (out0 : List RVal)
    (ps1 : List (List Char)) (bad : List Char) (ps2 : List (List Char))
    (hfull : ¬ full.headD (Char.ofNat 0) = Char.ofNat 0)
    (hsplit : SplitStringToVector full delim omitEmpty = ps1 ++ bad :: ps2)
    (hok : ∀ p ∈ ps1, (ConvertStringToReal p).isSome = true)
    (hbad : ConvertStringToReal bad = none) :
    SplitStringToFloats full delim omitEmpty out0
      = (false, writeVals ps1 0
          (resizeList out0 (ps1 ++ bad :: ps2).length rvalZero)) := by
  unfold SplitStringToFloats
  rw [if_neg (by simpa using hfull)]
  rw [hsplit]
  exact fillLoop_first_failure ps1 bad ps2 0 _ hok hbad

/-- C1 (witness): the abort rule instantiated at `"2,y"`: piece `"2"`
parses, piece `"y"` fails, and the final vector is the written prefix over
the resized vector. -/
theorem SplitStringToFloats_first_failure_aborts_witness :
    SplitStringToFloats "2,y".data [','] false []
      = (false, writeVals [['2']] 0
          (resizeList [] ([['2']] ++ ['y'] :: []).length rvalZero)) :=
  SplitStringToFloats_first_failure_aborts "2,y".data [','] false []
    [['2']] ['y'] [] (by decide) (by decide) (by decide) (by decide)
